import Mathlib

/-!
Shallow embedding of the HTTP message model and incremental parser from
`src/http.rs` and `src/http/parser.rs` of the codecrafters-http-server-rust
repository.  Strings are modelled as lists of characters (`Str`); the byte
stream feeding the parser is likewise a list of characters (the server's
protocol data is ASCII, where Rust bytes and chars coincide).  Rust standard
library operations used by the source (`str::split`, `str::trim`,
`split_ascii_whitespace`, `eq_ignore_ascii_case`, `usize::from_str`,
`BTreeSet` minimum) are embedded as executable Lean functions with the same
behaviour on the relevant inputs.
-/

/-- Strings of the embedded program: lists of characters. -/
abbrev Str := List Char

/-- Convert a Lean string literal to the embedded string type. -/
def str (s : String) : Str := s.data

/-- ASCII whitespace recognised by the embedding of Rust `trim` /
`split_ascii_whitespace` (space, tab, carriage return, line feed). -/
def isWsp (c : Char) : Bool := c = ' ' || c = '\t' || c = '\r' || c = '\n'

/-- Embedding of Rust `str::trim`: drop leading and trailing whitespace. -/
def trim (s : Str) : Str := ((s.dropWhile isWsp).reverse.dropWhile isWsp).reverse

/-- Fueled worker for `splitSep`: leftmost non-overlapping split of a string on
a separator, as Rust `str::split` with a non-empty pattern.  The accumulator
holds the current piece reversed; the fuel only guards termination and is
always sufficient for a non-empty separator. -/
def splitSepFuel (sep : Str) : Nat → Str → Str → List Str
  | 0, s, acc => [acc.reverse ++ s]
  | _ + 1, [], acc => [acc.reverse]
  | fuel + 1, c :: rest, acc =>
    if sep.isPrefixOf (c :: rest) then
      acc.reverse :: splitSepFuel sep fuel ((c :: rest).drop sep.length) []
    else
      splitSepFuel sep fuel rest (c :: acc)

/-- Embedding of Rust `str::split` on a non-empty string pattern:
leftmost, non-overlapping occurrences; always returns at least one piece. -/
def splitSep (sep : Str) (s : Str) : List Str := splitSepFuel sep (s.length + 1) s []

/-- Embedding of Rust `str::split_ascii_whitespace`: the maximal non-empty
runs of non-whitespace characters. -/
def splitWsp : Str → List Str :=
  go []
where
  /-- Worker: `go acc s` scans `s` with the current (reversed) token `acc`. -/
  go : Str → Str → List Str
  | acc, [] => if acc.isEmpty then [] else [acc.reverse]
  | acc, c :: rest =>
    if isWsp c then
      if acc.isEmpty then go [] rest else acc.reverse :: go [] rest
    else
      go (c :: acc) rest

/-- ASCII lowercasing of a single character, as Rust `to_ascii_lowercase`. -/
def toLowerAscii (c : Char) : Char :=
  if 'A' ≤ c && c ≤ 'Z' then Char.ofNat (c.toNat + 32) else c

/-- Embedding of Rust `str::eq_ignore_ascii_case`. -/
def eqIgnoreAsciiCase (a b : Str) : Bool :=
  a.map toLowerAscii = b.map toLowerAscii

/-- Embedding of Rust `usize::from_str` (`value.parse::<usize>()`): an
optional leading `+`, then one or more ASCII digits, value below `2^64`. -/
def parseUsize (s : Str) : Option Nat :=
  let t := match s with
    | '+' :: r => r
    | r => r
  if t ≠ [] && t.all (fun c => '0' ≤ c && c ≤ '9') then
    let v := t.foldl (fun a c => a * 10 + (c.toNat - 48)) 0
    if v < 2 ^ 64 then some v else none
  else none

/-- Decimal representation of a natural number, as Rust `usize::to_string`. -/
def natToStr (n : Nat) : Str := Nat.toDigits 10 n

/-! ## The message model (`src/http.rs`) -/

/-- Rust `enum HttpMethod` from `src/http.rs`. -/
inductive HttpMethod
  | GET | POST | PUT | DELETE | OPTIONS | HEAD | CONNECT | PATCH | TRACE
  deriving DecidableEq, Repr

/-- Rust `enum HttpVersion` from `src/http.rs`. -/
inductive HttpVersion
  | V10 | V11 | V20
  deriving DecidableEq, Repr

/-- Rust `enum HttpStatus` from `src/http.rs`. -/
inductive HttpStatus
  | OK | Created | BadRequest | Unauthorized | Forbidden | NotFound
  | MethodNotAllowed | InternalError
  deriving DecidableEq, Repr

/-- Rust `enum HttpEncoding` from `src/http.rs`, in declaration order (the derived
`Ord` used by the `BTreeSet` orders variants by this declaration order). -/
inductive HttpEncoding
  | Gzip | Deflate | Brotli | Compress | Exi | Identity | Zstd | Unsupported
  deriving DecidableEq, Repr

/-- Rust `enum MimeType` from `src/http.rs`. -/
inductive MimeType
  | PlainText | JSON | HTML | OctetStream
  deriving DecidableEq, Repr

/-- Rust `enum ParseError` from `src/http.rs`. -/
inductive ParseError
  | UnknownMethod (token : Str)
  | UnhandledVersion (token : Str)
  | MissingMethod
  | MissingVersion
  | MissingPath
  | MalformedRequest
  | Unreachable
  deriving DecidableEq, Repr

/-- Rust `enum HttpError` from `src/http.rs`. -/
inductive HttpError
  | NotFound (path : Str)
  | MethodNotAllowed (methods : List HttpMethod)
  | BadRequest (e : ParseError)
  | InternalError
  | Unauthorized
  | Forbidden
  deriving DecidableEq, Repr

/-- Rust `struct HttpHeader` from `src/http.rs`: a name/value pair. -/
structure HttpHeader where
  name : Str
  value : Str
  deriving DecidableEq, Repr

/-- Rust `struct HttpHeaderCollection`: a map from header name to header, keys
unique, last write for an exact name wins.  Modelled as an association list
whose keys are pairwise distinct; `addHeader` replaces in place or appends. -/
abbrev HttpHeaderCollection := List HttpHeader

/-- Rust `HttpHeaderCollection::add_header`: insert, overwriting the entry with the
same exact name if present (Rust `HashMap::insert`). -/
def addHeader (c : HttpHeaderCollection) (key value : Str) : HttpHeaderCollection :=
  if c.any (fun h => h.name = key) then
    c.map (fun h => if h.name = key then ⟨key, value⟩ else h)
  else
    c ++ [⟨key, value⟩]

/-- Rust `HttpHeaderCollection::get_value`: look a name up, return its value. -/
def getValue (c : HttpHeaderCollection) (key : Str) : Option Str :=
  match c.find? (fun h => h.name = key) with
  | some h => some h.value
  | none => none

/-- Rust `HttpHeaderCollection::from_vector`: fold the vector into the map,
later entries overwriting earlier ones with the same exact name. -/
def fromVector (input : List HttpHeader) : HttpHeaderCollection :=
  input.foldl (fun c h => addHeader c h.name h.value) []

/-- Rust `impl Display for HttpMethod` (via the derived `Debug`): the variant
name, e.g. `"GET"`. -/
def HttpMethod.toStr : HttpMethod → Str
  | .GET => str "GET"
  | .POST => str "POST"
  | .PUT => str "PUT"
  | .DELETE => str "DELETE"
  | .OPTIONS => str "OPTIONS"
  | .HEAD => str "HEAD"
  | .CONNECT => str "CONNECT"
  | .PATCH => str "PATCH"
  | .TRACE => str "TRACE"

/-- Rust `HttpMethod::from_str` from `src/http.rs`. -/
def HttpMethod.fromStr (input : Str) : Except ParseError HttpMethod :=
  if input = str "GET" then .ok .GET
  else if input = str "POST" then .ok .POST
  else if input = str "PUT" then .ok .PUT
  else if input = str "DELETE" then .ok .DELETE
  else if input = str "OPTIONS" then .ok .OPTIONS
  else if input = str "HEAD" then .ok .HEAD
  else if input = str "CONNECT" then .ok .CONNECT
  else if input = str "PATCH" then .ok .PATCH
  else if input = str "TRACE" then .ok .TRACE
  else .error (.UnknownMethod input)

/-- Rust `impl Display for HttpVersion`: the exact wire token. -/
def HttpVersion.toStr : HttpVersion → Str
  | .V10 => str "HTTP/1.0"
  | .V11 => str "HTTP/1.1"
  | .V20 => str "HTTP/2.0"

/-- Rust `HttpVersion::from_str` from `src/http.rs`. -/
def HttpVersion.fromStr (input : Str) : Except ParseError HttpVersion :=
  if input = str "HTTP/1.0" then .ok .V10
  else if input = str "HTTP/1.1" then .ok .V11
  else if input = str "HTTP/2.0" then .ok .V20
  else .error (.UnhandledVersion input)

/-- Rust `impl From<&str> for HttpEncoding`: case-sensitive token match, unknown
tokens map to `Unsupported`. -/
def HttpEncoding.fromStr (value : Str) : HttpEncoding :=
  if value = str "br" then .Brotli
  else if value = str "gzip" then .Gzip
  else if value = str "deflate" then .Deflate
  else if value = str "compress" then .Compress
  else if value = str "exi" then .Exi
  else if value = str "zstd" then .Zstd
  else if value = str "identity" then .Identity
  else .Unsupported

/-- Rust `impl Display for HttpEncoding`. -/
def HttpEncoding.toStr : HttpEncoding → Str
  | .Brotli => str "br"
  | .Compress => str "compress"
  | .Deflate => str "deflate"
  | .Exi => str "exi"
  | .Gzip => str "gzip"
  | .Identity => str "identity"
  | .Zstd => str "zstd"
  | .Unsupported => str ""

/-- The rank of an encoding under the derived Rust `Ord`: declaration order
`Gzip < Deflate < Brotli < Compress < Exi < Identity < Zstd < Unsupported`. -/
def HttpEncoding.rank : HttpEncoding → Nat
  | .Gzip => 0
  | .Deflate => 1
  | .Brotli => 2
  | .Compress => 3
  | .Exi => 4
  | .Identity => 5
  | .Zstd => 6
  | .Unsupported => 7

/-- The minimum of a list of encodings under the derived order: the value of
`BTreeSet::iter().next()` when the set holds exactly the listed elements. -/
def encMin : List HttpEncoding → Option HttpEncoding
  | [] => none
  | e :: es =>
    match encMin es with
    | none => some e
    | some m => some (if e.rank ≤ m.rank then e else m)

/-- Rust `impl Display for HttpStatus`: the numeric code and reason phrase. -/
def HttpStatus.display : HttpStatus → Nat × Str
  | .OK => (200, str "OK")
  | .MethodNotAllowed => (405, str "Method Not Allowed")
  | .NotFound => (404, str "Not Found")
  | .BadRequest => (400, str "Bad Request")
  | .InternalError => (500, str "Internal Server Error")
  | .Created => (201, str "Created")
  | .Unauthorized => (401, str "Unauthorized")
  | .Forbidden => (403, str "Forbidden")

/-- The numeric status code of `HttpStatus.display`. -/
def HttpStatus.code (s : HttpStatus) : Nat := s.display.1

/-- Rust `impl Display for MimeType`: the wire media-type string. -/
def MimeType.toStr : MimeType → Str
  | .PlainText => str "text/plain"
  | .JSON => str "application/json"
  | .HTML => str "text/html"
  | .OctetStream => str "application/octet-stream"

/-- Rust `struct HttpRequest` from `src/http.rs`. -/
structure HttpRequest where
  method : HttpMethod
  path : Str
  version : HttpVersion
  headers : HttpHeaderCollection
  encoding : Option HttpEncoding
  body : Option Str
  deriving DecidableEq, Repr

/-- Rust `struct HttpResponse` from `src/http.rs`. -/
structure HttpResponse where
  version : HttpVersion
  status : HttpStatus
  headers : HttpHeaderCollection
  body : Str
  deriving DecidableEq, Repr

/-- Rust `struct HttpResponseBuilder` from `src/http.rs`. -/
structure HttpResponseBuilder where
  version : Option HttpVersion
  status : Option HttpStatus
  headers : HttpHeaderCollection
  body : Option Str
  deriving DecidableEq, Repr

/-- Rust `HttpResponse::new`: empty body, empty header collection. -/
def HttpResponse.mkNew (version : HttpVersion) (status : HttpStatus) : HttpResponse :=
  { version := version, status := status, body := [], headers := [] }

/-- Rust `HttpResponse::with_headers`. -/
def HttpResponse.withHeaders (version : HttpVersion) (status : HttpStatus)
    (headers : List HttpHeader) : HttpResponse :=
  { version := version, status := status, headers := fromVector headers, body := [] }

/-- Rust `HttpResponseBuilder::new`. -/
def HttpResponseBuilder.mkNew : HttpResponseBuilder :=
  { version := none, status := none, headers := [], body := none }

/-- Rust `HttpResponseBuilder::with_status`. -/
def HttpResponseBuilder.withStatus (b : HttpResponseBuilder) (status : HttpStatus) :
    HttpResponseBuilder :=
  { b with status := some status }

/-- Rust `HttpResponseBuilder::with_body`: record the body and add the framing
headers `Content-Type`, `Content-Length` (byte length of the body) and, for a
given encoding other than `Unsupported`, `Content-Encoding`. -/
def HttpResponseBuilder.withBody (b : HttpResponseBuilder) (body : Str)
    (mimeType : MimeType) (encoding : Option HttpEncoding) : HttpResponseBuilder :=
  let headers := addHeader b.headers (str "Content-Type") mimeType.toStr
  let headers := addHeader headers (str "Content-Length") (natToStr body.length)
  let headers :=
    match encoding with
    | some e => if e ≠ HttpEncoding.Unsupported then
        addHeader headers (str "Content-Encoding") e.toStr
      else headers
    | none => headers
  { b with headers := headers, body := some body }

/-- Rust `HttpResponseBuilder::add_header`. -/
def HttpResponseBuilder.addHdr (b : HttpResponseBuilder) (name value : Str) :
    HttpResponseBuilder :=
  { b with headers := addHeader b.headers name value }

/-- Rust `HttpResponseBuilder::to_response`: materialize defaults `HTTP/1.1`,
`200 OK` and the empty body. -/
def HttpResponseBuilder.toResponse (b : HttpResponseBuilder) : HttpResponse :=
  { version := b.version.getD HttpVersion.V11
    status := b.status.getD HttpStatus.OK
    headers := b.headers
    body := b.body.getD [] }

/-- Comma-join of a list of strings, as Rust `Vec<String>::join(",")`. -/
def joinComma (l : List Str) : Str := List.intercalate (str ",") l

/-- Rust `HttpError::to_response` from `src/http.rs`: total mapping from the error
taxonomy to a response (the `println!` side effect is meaningless here). -/
def HttpError.toResponse : HttpError → HttpResponse
  | .NotFound _ => HttpResponse.mkNew HttpVersion.V11 HttpStatus.NotFound
  | .MethodNotAllowed methods =>
    let allowedMethods := joinComma (methods.map HttpMethod.toStr)
    HttpResponse.withHeaders HttpVersion.V11 HttpStatus.MethodNotAllowed
      [⟨str "Allowed", allowedMethods⟩]
  | .BadRequest _ => HttpResponse.mkNew HttpVersion.V11 HttpStatus.BadRequest
  | .InternalError =>
    (HttpResponseBuilder.mkNew.withStatus HttpStatus.InternalError).toResponse
  | .Unauthorized =>
    ((HttpResponseBuilder.mkNew.withStatus HttpStatus.Unauthorized).addHdr
      (str "WWW-Authenticate") (str "Basic")).toResponse
  | .Forbidden =>
    (HttpResponseBuilder.mkNew.withStatus HttpStatus.Forbidden).toResponse

/-! ## The incremental parser (`src/http/parser.rs`) -/

/-- Rust `enum ParserState` from `src/http/parser.rs`. -/
inductive ParserState
  | Start | Headers | Body | Done
  deriving DecidableEq, Repr

/-- Rust `struct Parser` from `src/http/parser.rs`.  The `BTreeSet<HttpEncoding>`
field is modelled as the list of inserted encodings; its only observation,
`iter().next()`, is `encMin` of that list. -/
structure Parser where
  state : ParserState
  method : Option HttpMethod
  path : Option Str
  version : Option HttpVersion
  headers : HttpHeaderCollection
  body : Option Str
  contentLength : Option Nat
  contentEncoding : List HttpEncoding
  deriving DecidableEq, Repr

/-- The outcome of `Parser::get_request`: the `Err(Unparsed)` failure, the
successful request, or a panic of one of the three `unwrap` calls. -/
inductive GetOutcome
  | unparsed
  | panicked
  | ok (r : HttpRequest)
  deriving DecidableEq, Repr

/-- Rust `Parser::new`. -/
def Parser.mkNew : Parser :=
  { state := ParserState.Start
    method := none
    path := none
    version := none
    headers := []
    body := none
    contentLength := none
    contentEncoding := [] }

/-- Rust `Parser::get_request`: `Unparsed` from any non-`Done` state; otherwise
unwrap the three start-line fields (a missing one is an `unwrap` panic) and
take the least inserted encoding (`BTreeSet::iter().next().copied()`). -/
def Parser.getRequest (p : Parser) : GetOutcome :=
  if p.state ≠ ParserState.Done then .unparsed
  else
    match p.method, p.path, p.version with
    | some m, some pa, some v =>
      .ok { method := m, path := pa, version := v, headers := p.headers
            encoding := encMin p.contentEncoding, body := p.body }
    | _, _, _ => .panicked

/-- Rust `Parser::parse_start_line`: split the line on ASCII whitespace; a missing
method/path/version token is the corresponding `Missing*` error; the method
and version tokens go through their `from_str` (whose errors propagate);
on success all three fields are set and the state becomes `Headers`. -/
def Parser.parseStartLine (p : Parser) (line : Str) : Except ParseError Parser :=
  match splitWsp line with
  | [] => .error ParseError.MissingMethod
  | methodTok :: rest =>
    match HttpMethod.fromStr methodTok with
    | .error e => .error e
    | .ok method =>
      match rest with
      | [] => .error ParseError.MissingPath
      | pathTok :: rest2 =>
        match rest2 with
        | [] => .error ParseError.MissingVersion
        | versionTok :: _ =>
          match HttpVersion.fromStr versionTok with
          | .error e => .error e
          | .ok version =>
            .ok { p with method := some method, path := some pathTok
                         version := some version, state := ParserState.Headers }

/-- Rust `Parser::parse_header`: a blank line moves to `Body` when a
content-length was recorded, else to `Done`; a non-blank line is split on
`": "` (fewer than two parts is `MalformedRequest`), name and value trimmed;
a `Content-Length` name (ASCII-case-insensitively) records the parsed value
(`MalformedRequest` on parse failure); an `Accept-Encoding` name inserts each
comma-separated trimmed token's encoding into the set; the header is stored. -/
def Parser.parseHeader (p : Parser) (line : Str) : Except ParseError Parser :=
  if trim line = [] then
    .ok { p with state :=
            if p.contentLength.isSome then ParserState.Body else ParserState.Done }
  else
    match splitSep (str ": ") line with
    | keyPart :: valuePart :: _ =>
      let key := trim keyPart
      let value := trim valuePart
      let newLength : Except ParseError (Option Nat) :=
        if eqIgnoreAsciiCase key (str "Content-Length") then
          match parseUsize value with
          | some n => .ok (some n)
          | none => .error ParseError.MalformedRequest
        else .ok p.contentLength
      match newLength with
      | .error e => .error e
      | .ok cl =>
        let encs :=
          if eqIgnoreAsciiCase key (str "Accept-Encoding") then
            p.contentEncoding ++
              (splitSep (str ",") value).map (fun t => HttpEncoding.fromStr (trim t))
          else p.contentEncoding
        .ok { p with contentLength := cl, contentEncoding := encs
                     headers := addHeader p.headers key value }
    | _ => .error ParseError.MalformedRequest

/-- Rust `Parser::parse_body`: with a recorded content length, `read_exact` that
many bytes (a short stream is an I/O error mapped to `MalformedRequest`) and
store them as the body; in every successful case the state becomes `Done`. -/
def Parser.parseBody (p : Parser) (s : Str) : Except ParseError Parser :=
  match p.contentLength with
  | some length =>
    if s.length < length then .error ParseError.MalformedRequest
    else .ok { p with body := some (s.take length), state := ParserState.Done }
  | none => .ok { p with state := ParserState.Done }

/-- Rust `BufReader::read_line`: the characters up to and including the first line
feed (or to end of stream), paired with the unread remainder.  A zero-length
line means end of stream. -/
def readLine : Str → Str × Str
  | [] => ([], [])
  | c :: cs =>
    if c = '\n' then ([c], cs)
    else
      let (l, r) := readLine cs
      (c :: l, r)

/-- The header-phase loop of `Parser::parse`: while the state is neither
`Done` nor `Body`, read a line (stopping at end of stream) and dispatch on
the state.  The fuel only guards termination; every line read consumes at
least one character, so `streamLength + 1` fuel is always sufficient. -/
def parseLoop : Nat → Parser → Str → Except ParseError (Parser × Str)
  | 0, p, s => .ok (p, s)
  | fuel + 1, p, s =>
    if p.state = ParserState.Done ∨ p.state = ParserState.Body then .ok (p, s)
    else
      match s with
      | [] => .ok (p, [])
      | c :: cs =>
        let lr := readLine (c :: cs)
        let step : Except ParseError Parser :=
          match p.state with
          | ParserState.Start => p.parseStartLine lr.1
          | ParserState.Headers => p.parseHeader lr.1
          | _ => .error ParseError.Unreachable
        match step with
        | .error e => .error e
        | .ok p' => parseLoop fuel p' lr.2

/-- Rust `Parser::parse`: run the line loop over the stream, then, when the loop
left the parser in the `Body` state, read the body from the remainder. -/
def Parser.parse (p : Parser) (s : Str) : Except ParseError Parser :=
  match parseLoop (s.length + 1) p s with
  | .error e => .error e
  | .ok (p', rest) =>
    if p'.state = ParserState.Body then p'.parseBody rest else .ok p'

/-- Rust `HttpRequest::from_stream` composed of `Parser::new`, `parse` and
`get_request` (the `Unparsed` case mapped to `ParseError::Unreachable`), with
the panic outcome kept visible. -/
def requestFromStream (s : Str) : Except ParseError GetOutcome :=
  match Parser.mkNew.parse s with
  | .error e => .error e
  | .ok p =>
    match p.getRequest with
    | GetOutcome.unparsed => .error ParseError.Unreachable
    | o => .ok o

/-! ## Helper definitions for observing parse results -/

instance {ε α : Type} [DecidableEq ε] [DecidableEq α] : DecidableEq (Except ε α) :=
  fun a b =>
    match a, b with
    | .ok x, .ok y =>
      if h : x = y then .isTrue (by rw [h])
      else .isFalse (fun hc => h (Except.ok.inj hc))
    | .error x, .error y =>
      if h : x = y then .isTrue (by rw [h])
      else .isFalse (fun hc => h (Except.error.inj hc))
    | .ok _, .error _ => .isFalse (fun hc => Except.noConfusion hc)
    | .error _, .ok _ => .isFalse (fun hc => Except.noConfusion hc)

/-- The negotiated encoding of the request parsed from a stream. -/
def requestEncoding (s : Str) : Except ParseError (Option HttpEncoding) :=
  match requestFromStream s with
  | .error e => .error e
  | .ok (GetOutcome.ok r) => .ok r.encoding
  | .ok _ => .error ParseError.Unreachable

/-- The body of the request parsed from a stream. -/
def requestBody (s : Str) : Except ParseError (Option Str) :=
  match requestFromStream s with
  | .error e => .error e
  | .ok (GetOutcome.ok r) => .ok r.body
  | .ok _ => .error ParseError.Unreachable

/-- The value stored for a header name in the request parsed from a stream. -/
def requestHeaderValue (s : Str) (key : Str) : Except ParseError (Option Str) :=
  match requestFromStream s with
  | .error e => .error e
  | .ok (GetOutcome.ok r) => .ok (getValue r.headers key)
  | .ok _ => .error ParseError.Unreachable

/-- The start-line fields a finished parse must carry. -/
def StartLineSet (p : Parser) : Prop :=
  p.method.isSome ∧ p.path.isSome ∧ p.version.isSome

/-- The reachability invariant of the parser: once the state has left
`Start`, the method, path and version fields are all set. -/
def ParserInv (p : Parser) : Prop :=
  p.state ≠ ParserState.Start → StartLineSet p


/-! ## Helper lemmas -/

theorem rank_injective : ∀ a b : HttpEncoding, a.rank = b.rank → a = b := by
  intro a b
  cases a <;> cases b <;> simp [HttpEncoding.rank]

theorem encMin_cons_none (a : HttpEncoding) (as : List HttpEncoding)
    (h : encMin as = none) : encMin (a :: as) = some a := by
  simp only [encMin, h]

theorem encMin_cons_some (a m : HttpEncoding) (as : List HttpEncoding)
    (h : encMin as = some m) :
    encMin (a :: as) = some (if a.rank ≤ m.rank then a else m) := by
  simp only [encMin, h]

theorem encMin_eq_none (l : List HttpEncoding) (h : encMin l = none) : l = [] := by
  cases l with
  | nil => rfl
  | cons a as =>
    cases hm : encMin as with
    | none => rw [encMin_cons_none a as hm] at h; simp at h
    | some m => rw [encMin_cons_some a m as hm] at h; simp at h

theorem encMin_mem (l : List HttpEncoding) (e : HttpEncoding) (h : encMin l = some e) :
    e ∈ l := by
  induction l generalizing e with
  | nil => simp [encMin] at h
  | cons a as ih =>
    cases hm : encMin as with
    | none =>
      rw [encMin_cons_none a as hm] at h
      simp only [Option.some.injEq] at h
      subst h
      exact List.mem_cons_self a as
    | some m =>
      rw [encMin_cons_some a m as hm] at h
      simp only [Option.some.injEq] at h
      by_cases hr : a.rank ≤ m.rank
      · rw [if_pos hr] at h
        subst h
        exact List.mem_cons_self a as
      · rw [if_neg hr] at h
        subst h
        exact List.mem_cons_of_mem a (ih m hm)

theorem encMin_le (l : List HttpEncoding) (e : HttpEncoding) (h : encMin l = some e) :
    ∀ x ∈ l, e.rank ≤ x.rank := by
  induction l generalizing e with
  | nil => simp [encMin] at h
  | cons a as ih =>
    intro x hx
    cases hm : encMin as with
    | none =>
      rw [encMin_cons_none a as hm] at h
      simp only [Option.some.injEq] at h
      subst h
      have has : as = [] := encMin_eq_none as hm
      subst has
      simp at hx
      subst hx
      exact Nat.le_refl _
    | some m =>
      rw [encMin_cons_some a m as hm] at h
      simp only [Option.some.injEq] at h
      rcases List.mem_cons.mp hx with hxa | hxas
      · rw [hxa]
        by_cases hr : a.rank ≤ m.rank
        · rw [if_pos hr] at h
          subst h
          exact Nat.le_refl _
        · rw [if_neg hr] at h
          subst h
          exact Nat.le_of_not_le hr
      · have hmx := ih m hm x hxas
        by_cases hr : a.rank ≤ m.rank
        · rw [if_pos hr] at h
          subst h
          exact Nat.le_trans hr hmx
        · rw [if_neg hr] at h
          subst h
          exact hmx

theorem encMin_perm (l₁ l₂ : List HttpEncoding) (h : l₁.Perm l₂) :
    encMin l₁ = encMin l₂ := by
  cases h1 : encMin l₁ with
  | none =>
    have h1n := encMin_eq_none _ h1
    subst h1n
    have h2n : l₂ = [] := h.symm.eq_nil
    subst h2n
    rfl
  | some e₁ =>
    cases h2 : encMin l₂ with
    | none =>
      have h2n := encMin_eq_none _ h2
      subst h2n
      have h1n : l₁ = [] := h.eq_nil
      subst h1n
      simp [encMin] at h1
    | some e₂ =>
      have m1 : e₁ ∈ l₂ := h.mem_iff.mp (encMin_mem _ _ h1)
      have m2 : e₂ ∈ l₁ := h.mem_iff.mpr (encMin_mem _ _ h2)
      have le1 : e₂.rank ≤ e₁.rank := encMin_le _ _ h2 _ m1
      have le2 : e₁.rank ≤ e₂.rank := encMin_le _ _ h1 _ m2
      rw [rank_injective e₁ e₂ (Nat.le_antisymm le2 le1)]

theorem splitSepFuel_ne_nil (sep : Str) :
    ∀ (fuel : Nat) (s acc : Str), splitSepFuel sep fuel s acc ≠ [] := by
  intro fuel
  induction fuel with
  | zero => intro s acc; simp [splitSepFuel]
  | succ n ih =>
    intro s acc
    cases s with
    | nil => simp [splitSepFuel]
    | cons c cs =>
      simp only [splitSepFuel]
      split
      · simp
      · exact ih cs (c :: acc)

theorem splitSep_ne_nil (sep s : Str) : splitSep sep s ≠ [] :=
  splitSepFuel_ne_nil sep (s.length + 1) s []

theorem parseStartLine_ok (p p' : Parser) (line : Str)
    (h : p.parseStartLine line = .ok p') : StartLineSet p' ∧ p'.state = ParserState.Headers := by
  unfold Parser.parseStartLine at h
  repeat any_goals split at h
  all_goals first
    | (injection h
       done)
    | (injection h with h
       subst h
       exact ⟨⟨rfl, rfl, rfl⟩, rfl⟩)

theorem parseHeader_fields (p p' : Parser) (line : Str)
    (h : p.parseHeader line = .ok p') :
    p'.method = p.method ∧ p'.path = p.path ∧ p'.version = p.version := by
  unfold Parser.parseHeader at h
  dsimp only at h
  repeat any_goals split at h
  all_goals first
    | (injection h
       done)
    | (injection h with h
       subst h
       exact ⟨rfl, rfl, rfl⟩)

theorem parseBody_fields (p p' : Parser) (s : Str)
    (h : p.parseBody s = .ok p') :
    p'.method = p.method ∧ p'.path = p.path ∧ p'.version = p.version ∧
      p'.state = ParserState.Done := by
  unfold Parser.parseBody at h
  repeat any_goals split at h
  all_goals first
    | (injection h
       done)
    | (injection h with h
       subst h
       exact ⟨rfl, rfl, rfl, rfl⟩)

theorem parseLoop_succ_cons (n : Nat) (p : Parser) (c : Char) (cs : Str)
    (hns : ¬(p.state = ParserState.Done ∨ p.state = ParserState.Body)) :
    parseLoop (n + 1) p (c :: cs) =
      match (match p.state with
             | ParserState.Start => p.parseStartLine (readLine (c :: cs)).1
             | ParserState.Headers => p.parseHeader (readLine (c :: cs)).1
             | _ => .error ParseError.Unreachable) with
      | .error e => .error e
      | .ok p2 => parseLoop n p2 (readLine (c :: cs)).2 := by
  simp only [parseLoop]
  rw [if_neg hns]

theorem parseLoop_inv :
    ∀ (fuel : Nat) (p : Parser) (s : Str) (p' : Parser) (rest : Str),
      ParserInv p → parseLoop fuel p s = .ok (p', rest) → ParserInv p' := by
  intro fuel
  induction fuel with
  | zero =>
    intro p s p' rest hInv h
    simp only [parseLoop] at h
    injection h with h
    rw [← (Prod.mk.injEq _ _ _ _).mp h |>.1]
    exact hInv
  | succ n ih =>
    intro p s p' rest hInv h
    by_cases hns : p.state = ParserState.Done ∨ p.state = ParserState.Body
    · simp only [parseLoop] at h
      rw [if_pos hns] at h
      injection h with h
      rw [← (Prod.mk.injEq _ _ _ _).mp h |>.1]
      exact hInv
    · cases s with
      | nil =>
        simp only [parseLoop] at h
        rw [if_neg hns] at h
        injection h with h
        rw [← (Prod.mk.injEq _ _ _ _).mp h |>.1]
        exact hInv
      | cons c cs =>
        rw [parseLoop_succ_cons n p c cs hns] at h
        split at h
        · injection h
        · rename_i p2 hstep
          split at hstep
          · have h2 := parseStartLine_ok p p2 _ hstep
            exact ih p2 _ p' rest (fun _ => h2.1) h
          · rename_i hheaders
            have h2 := parseHeader_fields p p2 _ hstep
            have hset : StartLineSet p2 := by
              have hp := hInv (by rw [hheaders]; intro hc; cases hc)
              exact ⟨h2.1 ▸ hp.1, h2.2.1 ▸ hp.2.1, h2.2.2 ▸ hp.2.2⟩
            exact ih p2 _ p' rest (fun _ => hset) h
          · injection hstep

theorem parse_inv (s : Str) (p' : Parser)
    (h : Parser.mkNew.parse s = .ok p') : ParserInv p' := by
  unfold Parser.parse at h
  have hnew : ParserInv Parser.mkNew := fun hc => absurd rfl hc
  cases hl : parseLoop (s.length + 1) Parser.mkNew s with
  | error e => rw [hl] at h; cases h
  | ok pr =>
    obtain ⟨p1, rest1⟩ := pr
    rw [hl] at h
    dsimp only at h
    have hinv := parseLoop_inv (s.length + 1) Parser.mkNew s p1 rest1 hnew hl
    by_cases hbody : p1.state = ParserState.Body
    · rw [if_pos hbody] at h
      have h2 := parseBody_fields p1 p' rest1 h
      intro _
      have hp := hinv (by rw [hbody]; intro hc; cases hc)
      exact ⟨h2.1 ▸ hp.1, h2.2.1 ▸ hp.2.1, h2.2.2.1 ▸ hp.2.2⟩
    · rw [if_neg hbody] at h
      injection h with h
      rw [← h]
      exact hinv

theorem getRequest_not_panicked (p : Parser) (hInv : ParserInv p) :
    p.getRequest ≠ GetOutcome.panicked := by
  unfold Parser.getRequest
  by_cases hd : p.state = ParserState.Done
  · rw [if_neg (by simp [hd])]
    have hset := hInv (by rw [hd]; intro hc; cases hc)
    obtain ⟨hm, hp, hv⟩ := hset
    obtain ⟨m, hm'⟩ := Option.isSome_iff_exists.mp hm
    obtain ⟨pa, hp'⟩ := Option.isSome_iff_exists.mp hp
    obtain ⟨v, hv'⟩ := Option.isSome_iff_exists.mp hv
    rw [hm', hp', hv']
    simp
  · rw [if_pos (by simp [hd])]
    simp

/-- C1: for a request header line whose name is case-insensitively
`Accept-Encoding`, the parser splits the value on commas, trims each token,
maps each through the encoding parser and inserts the results into the
encoding set; the negotiated encoding taken from the set is the single
lowest-ordered element under the fixed order
`Gzip < Deflate < Brotli < Compress < Exi < Identity < Zstd < Unsupported`,
independent of the client's listing order (an order-permutation of the
collected encodings leaves it unchanged); a finished parser hands that
minimum out as the request's encoding; in particular the stream carrying
`Accept-Encoding: zstd, gzip, br` negotiates `gzip`. -/
theorem C1_accept_encoding_lowest_ordered :
    (∀ (p : Parser) (line keyPart valuePart : Str) (restParts : List Str),
      trim line ≠ [] →
      splitSep (str ": ") line = keyPart :: valuePart :: restParts →
      eqIgnoreAsciiCase (trim keyPart) (str "Accept-Encoding") = true →
      eqIgnoreAsciiCase (trim keyPart) (str "Content-Length") = false →
      p.parseHeader line = .ok { p with
        contentEncoding := p.contentEncoding ++
          (splitSep (str ",") (trim valuePart)).map
            (fun t => HttpEncoding.fromStr (trim t))
        headers := addHeader p.headers (trim keyPart) (trim valuePart) }) ∧
    (∀ l₁ l₂ : List HttpEncoding, l₁.Perm l₂ → encMin l₁ = encMin l₂) ∧
    (∀ (l : List HttpEncoding) (e : HttpEncoding),
      encMin l = some e → e ∈ l ∧ ∀ x ∈ l, e.rank ≤ x.rank) ∧
    (∀ (p : Parser) (m : HttpMethod) (pa : Str) (v : HttpVersion),
      p.state = ParserState.Done → p.method = some m → p.path = some pa →
      p.version = some v →
      p.getRequest = GetOutcome.ok
        { method := m, path := pa, version := v, headers := p.headers
          encoding := encMin p.contentEncoding, body := p.body }) ∧
    requestEncoding (str "GET / HTTP/1.1\r\nAccept-Encoding: zstd, gzip, br\r\n\r\n") =
      .ok (some HttpEncoding.Gzip) := by
  refine ⟨?_, encMin_perm, fun l e h => ⟨encMin_mem l e h, encMin_le l e h⟩, ?_, by decide⟩
  · intro p line keyPart valuePart restParts hnb hsplit hae hcl
    unfold Parser.parseHeader
    rw [if_neg hnb, hsplit]
    dsimp only
    rw [hcl, hae]
    rfl
  · intro p m pa v hd hm hp hv
    unfold Parser.getRequest
    rw [if_neg (by rw [hd]; intro hc; exact hc rfl), hm, hp, hv]

/-- Witness for C1: the general parts applied to the concrete header line
`Accept-Encoding: zstd, gzip, br` and to a permutation of the collected
encodings, whose minimum is `Gzip` either way. -/
theorem C1_accept_encoding_lowest_ordered_witness :
    ({ Parser.mkNew with state := ParserState.Headers } : Parser).parseHeader
        (str "Accept-Encoding: zstd, gzip, br\r\n") =
      .ok { Parser.mkNew with
        state := ParserState.Headers
        contentEncoding :=
          [HttpEncoding.Zstd, HttpEncoding.Gzip, HttpEncoding.Brotli]
        headers := [⟨str "Accept-Encoding", str "zstd, gzip, br"⟩] } ∧
    encMin [HttpEncoding.Zstd, HttpEncoding.Gzip, HttpEncoding.Brotli] =
      encMin [HttpEncoding.Gzip, HttpEncoding.Brotli, HttpEncoding.Zstd] := by
  constructor
  · have h := C1_accept_encoding_lowest_ordered.1
      { Parser.mkNew with state := ParserState.Headers }
      (str "Accept-Encoding: zstd, gzip, br\r\n")
      (str "Accept-Encoding") (str "zstd, gzip, br\r\n") []
      (by decide) (by decide) (by decide) (by decide)
    rw [h]
    decide
  · exact C1_accept_encoding_lowest_ordered.2.1
      [HttpEncoding.Zstd, HttpEncoding.Gzip, HttpEncoding.Brotli]
      [HttpEncoding.Gzip, HttpEncoding.Brotli, HttpEncoding.Zstd]
      (by decide)

/-- C2 counterexample: the header line `Host: a: b` does not keep the value
intact after the first `": "` separator — the parser records the value `a`,
not `a: b`, because it takes only the second piece of the split. -/
theorem C2_counterexample :
    requestHeaderValue (str "GET / HTTP/1.1\r\nHost: a: b\r\n\r\n") (str "Host") =
      .ok (some (str "a")) ∧
    (some (str "a") : Option Str) ≠ some (str "a: b") := by decide

/-- C2 amended: every non-blank header line is split on all occurrences of
`": "`; fewer than two pieces is `MalformedRequest`, and on success the
stored header name is the trimmed first piece and the stored value the
trimmed second piece only — text after a second separator is discarded. -/
theorem C2_header_line_split :
    (∀ (p : Parser) (line : Str),
      trim line ≠ [] → (splitSep (str ": ") line).length < 2 →
      p.parseHeader line = .error ParseError.MalformedRequest) ∧
    (∀ (p p' : Parser) (line : Str),
      trim line ≠ [] → p.parseHeader line = .ok p' →
      ∃ keyPart valuePart restParts,
        splitSep (str ": ") line = keyPart :: valuePart :: restParts ∧
        p'.headers = addHeader p.headers (trim keyPart) (trim valuePart)) := by
  constructor
  · intro p line hnb hlen
    unfold Parser.parseHeader
    rw [if_neg hnb]
    cases hsp : splitSep (str ": ") line with
    | nil => rfl
    | cons a t =>
      cases t with
      | nil => rfl
      | cons b t2 => rw [hsp] at hlen; simp at hlen; omega
  · intro p p' line hnb h
    unfold Parser.parseHeader at h
    rw [if_neg hnb] at h
    cases hsp : splitSep (str ": ") line with
    | nil => rw [hsp] at h; cases h
    | cons a t =>
      cases t with
      | nil => rw [hsp] at h; cases h
      | cons b t2 =>
        rw [hsp] at h
        dsimp only at h
        refine ⟨a, b, t2, rfl, ?_⟩
        split at h
        · cases h
        · injection h with h
          rw [← h]

/-- Witness for C2: the amended theorem applied to the one-piece line
`Host` (malformed) and to the line `Host: a: b`, whose stored value is the
trimmed second piece `a`. -/
theorem C2_header_line_split_witness :
    Parser.mkNew.parseHeader (str "Host\r\n") = .error ParseError.MalformedRequest ∧
    ∃ keyPart valuePart restParts,
      splitSep (str ": ") (str "Host: a: b\r\n") = keyPart :: valuePart :: restParts ∧
      ([⟨str "Host", str "a"⟩] : HttpHeaderCollection) =
        addHeader [] (trim keyPart) (trim valuePart) := by
  constructor
  · exact C2_header_line_split.1 Parser.mkNew (str "Host\r\n") (by decide) (by decide)
  · exact C2_header_line_split.2
      { Parser.mkNew with state := ParserState.Headers }
      { Parser.mkNew with
        state := ParserState.Headers
        headers := [⟨str "Host", str "a"⟩] }
      (str "Host: a: b\r\n") (by decide) (by decide)

/-- C7: splitting the request line on ASCII whitespace yields method, path
and version tokens in that order; an absent first, second or third token
yields `MissingMethod`, `MissingPath` or `MissingVersion` respectively,
while a present but unrecognized method or version token yields
`UnknownMethod` or `UnhandledVersion` carrying the raw token; in particular
`FOO / HTTP/1.1` yields `UnknownMethod("FOO")`, distinct from the
`MissingMethod` of an empty request line. -/
theorem C7_start_line_token_errors :
    (∀ (p : Parser) (line : Str), splitWsp line = [] →
      p.parseStartLine line = .error ParseError.MissingMethod) ∧
    (∀ (p : Parser) (line m : Str) (rest : List Str) (e : ParseError),
      splitWsp line = m :: rest → HttpMethod.fromStr m = .error e →
      p.parseStartLine line = .error e) ∧
    (∀ (p : Parser) (line m : Str) (M : HttpMethod),
      splitWsp line = [m] → HttpMethod.fromStr m = .ok M →
      p.parseStartLine line = .error ParseError.MissingPath) ∧
    (∀ (p : Parser) (line m pa : Str) (M : HttpMethod),
      splitWsp line = [m, pa] → HttpMethod.fromStr m = .ok M →
      p.parseStartLine line = .error ParseError.MissingVersion) ∧
    (∀ (p : Parser) (line m pa v : Str) (rest : List Str) (M : HttpMethod)
       (e : ParseError),
      splitWsp line = m :: pa :: v :: rest → HttpMethod.fromStr m = .ok M →
      HttpVersion.fromStr v = .error e → p.parseStartLine line = .error e) ∧
    Parser.mkNew.parseStartLine (str "FOO / HTTP/1.1\r\n") =
      .error (ParseError.UnknownMethod (str "FOO")) ∧
    Parser.mkNew.parseStartLine (str "\r\n") = .error ParseError.MissingMethod ∧
    ParseError.UnknownMethod (str "FOO") ≠ ParseError.MissingMethod := by
  refine ⟨?_, ?_, ?_, ?_, ?_, by decide, by decide, by decide⟩
  · intro p line hsp
    unfold Parser.parseStartLine
    rw [hsp]
  · intro p line m rest e hsp hm
    unfold Parser.parseStartLine
    rw [hsp]
    dsimp only
    rw [hm]
  · intro p line m M hsp hm
    unfold Parser.parseStartLine
    rw [hsp]
    dsimp only
    rw [hm]
  · intro p line m pa M hsp hm
    unfold Parser.parseStartLine
    rw [hsp]
    dsimp only
    rw [hm]
  · intro p line m pa v rest M e hsp hm hv
    unfold Parser.parseStartLine
    rw [hsp]
    dsimp only
    rw [hm]
    dsimp only
    rw [hv]

/-- Witness for C7: the general error cases applied to concrete request
lines with a missing path, a missing version, and an unhandled version. -/
theorem C7_start_line_token_errors_witness :
    Parser.mkNew.parseStartLine (str "GET\r\n") = .error ParseError.MissingPath ∧
    Parser.mkNew.parseStartLine (str "GET /\r\n") = .error ParseError.MissingVersion ∧
    Parser.mkNew.parseStartLine (str "GET / HTTP/9.9\r\n") =
      .error (ParseError.UnhandledVersion (str "HTTP/9.9")) ∧
    Parser.mkNew.parseStartLine (str "BAR / HTTP/1.1\r\n") =
      .error (ParseError.UnknownMethod (str "BAR")) := by
  refine ⟨?_, ?_, ?_, ?_⟩
  · exact C7_start_line_token_errors.2.2.1 Parser.mkNew (str "GET\r\n") (str "GET")
      HttpMethod.GET (by decide) (by decide)
  · exact C7_start_line_token_errors.2.2.2.1 Parser.mkNew (str "GET /\r\n") (str "GET")
      (str "/") HttpMethod.GET (by decide) (by decide)
  · exact C7_start_line_token_errors.2.2.2.2.1 Parser.mkNew (str "GET / HTTP/9.9\r\n")
      (str "GET") (str "/") (str "HTTP/9.9") [] HttpMethod.GET
      (ParseError.UnhandledVersion (str "HTTP/9.9")) (by decide) (by decide) (by decide)
  · exact C7_start_line_token_errors.2.1 Parser.mkNew (str "BAR / HTTP/1.1\r\n")
      (str "BAR") [str "/", str "HTTP/1.1"] (ParseError.UnknownMethod (str "BAR"))
      (by decide) (by decide)

/-- C4: a header whose name case-insensitively equals `Content-Length` has
its trimmed value parsed as a non-negative integer and recorded (a value
failing integer parsing is `MalformedRequest`), and the body phase reads
exactly that many bytes — a stream with fewer bytes remaining is
`MalformedRequest`, never a shorter body; concretely, `Content-Length: 5`
followed by `hello` parses the body `hello`, `Content-Length: 10` over the
same five bytes fails, and a non-numeric `Content-Length` fails. -/
theorem C4_content_length_exact_body :
    (∀ (p : Parser) (line keyPart valuePart : Str) (restParts : List Str),
      trim line ≠ [] →
      splitSep (str ": ") line = keyPart :: valuePart :: restParts →
      eqIgnoreAsciiCase (trim keyPart) (str "Content-Length") = true →
      (parseUsize (trim valuePart) = none →
        p.parseHeader line = .error ParseError.MalformedRequest) ∧
      (∀ n : Nat, parseUsize (trim valuePart) = some n →
        ∃ p', p.parseHeader line = .ok p' ∧ p'.contentLength = some n)) ∧
    (∀ (p : Parser) (length : Nat) (s : Str), p.contentLength = some length →
      (s.length < length → p.parseBody s = .error ParseError.MalformedRequest) ∧
      (length ≤ s.length → p.parseBody s =
        .ok { p with body := some (s.take length), state := ParserState.Done })) ∧
    requestBody (str "POST / HTTP/1.1\r\nContent-Length: 5\r\n\r\nhello") =
      .ok (some (str "hello")) ∧
    Parser.mkNew.parse (str "POST / HTTP/1.1\r\nContent-Length: 10\r\n\r\nhello") =
      .error ParseError.MalformedRequest ∧
    Parser.mkNew.parse (str "POST / HTTP/1.1\r\nContent-Length: abc\r\n\r\n") =
      .error ParseError.MalformedRequest := by
  refine ⟨?_, ?_, by decide, by decide, by decide⟩
  · intro p line keyPart valuePart restParts hnb hsplit hcl
    unfold Parser.parseHeader
    rw [if_neg hnb, hsplit]
    dsimp only
    rw [hcl]
    constructor
    · intro hpu
      rw [hpu]
      rfl
    · intro n hpu
      rw [hpu]
      dsimp only
      exact ⟨_, rfl, rfl⟩
  · intro p length s hcl
    unfold Parser.parseBody
    rw [hcl]
    dsimp only
    constructor
    · intro hlt
      rw [if_pos hlt]
    · intro hle
      rw [if_neg (Nat.not_lt.mpr hle)]

/-- Witness for C4: the general parts applied to the concrete header line
`Content-Length: 5` and to a five-byte stream read with recorded lengths
that fit and that do not. -/
theorem C4_content_length_exact_body_witness :
    (∃ p', Parser.mkNew.parseHeader (str "Content-Length: 5\r\n") = .ok p' ∧
      p'.contentLength = some 5) ∧
    ({ Parser.mkNew with contentLength := some 10 } : Parser).parseBody (str "hello") =
      .error ParseError.MalformedRequest ∧
    ({ Parser.mkNew with contentLength := some 5 } : Parser).parseBody (str "hello") =
      .ok { Parser.mkNew with
        contentLength := some 5
        body := some ((str "hello").take 5)
        state := ParserState.Done } := by
  refine ⟨?_, ?_, ?_⟩
  · exact (C4_content_length_exact_body.1 Parser.mkNew (str "Content-Length: 5\r\n")
      (str "Content-Length") (str "5\r\n") [] (by decide) (by decide) (by decide)).2
      5 (by decide)
  · exact (C4_content_length_exact_body.2.1
      { Parser.mkNew with contentLength := some 10 } 10 (str "hello") rfl).1 (by decide)
  · exact (C4_content_length_exact_body.2.1
      { Parser.mkNew with contentLength := some 5 } 5 (str "hello") rfl).2 (by decide)

/-- C8: requesting the finished request from any parser not in the `Done`
state is the `Unparsed` failure, never a default request; and a stream
ending before the blank header-terminator line (with no Content-Length
recorded) leaves `parse` returning `Ok` with the parser still in the
`Headers` state, so the overall parse is an incomplete-parse failure. -/
theorem C8_non_done_is_unparsed :
    (∀ p : Parser, p.state ≠ ParserState.Done → p.getRequest = GetOutcome.unparsed) ∧
    Parser.mkNew.parse (str "GET / HTTP/1.1\r\nHost: x\r\n") =
      .ok { Parser.mkNew with
        state := ParserState.Headers
        method := some HttpMethod.GET
        path := some (str "/")
        version := some HttpVersion.V11
        headers := [⟨str "Host", str "x"⟩] } ∧
    ({ Parser.mkNew with
        state := ParserState.Headers
        method := some HttpMethod.GET
        path := some (str "/")
        version := some HttpVersion.V11
        headers := [⟨str "Host", str "x"⟩] } : Parser).getRequest =
      GetOutcome.unparsed ∧
    requestFromStream (str "GET / HTTP/1.1\r\nHost: x\r\n") =
      .error ParseError.Unreachable := by
  refine ⟨?_, by decide, by decide, by decide⟩
  intro p hp
  unfold Parser.getRequest
  rw [if_pos hp]

/-- Witness for C8: the `Unparsed` outcome of the fresh parser, obtained
from the theorem's first part at the concrete non-`Done` state `Start`. -/
theorem C8_non_done_is_unparsed_witness :
    Parser.mkNew.getRequest = GetOutcome.unparsed :=
  C8_non_done_is_unparsed.1 Parser.mkNew (by decide)

/-- C9: every parser produced by a successful `parse` run from `Parser::new`
has its method, path and version fields set whenever its state is `Done`;
consequently the three `unwrap` calls in `get_request` cannot panic. -/
theorem C9_done_state_start_line_set (s : Str) (p' : Parser)
    (h : Parser.mkNew.parse s = .ok p') :
    (p'.state = ParserState.Done →
      p'.method.isSome ∧ p'.path.isSome ∧ p'.version.isSome) ∧
    p'.getRequest ≠ GetOutcome.panicked := by
  have hinv := parse_inv s p' h
  exact ⟨fun hd => hinv (by rw [hd]; intro hc; cases hc),
    getRequest_not_panicked p' hinv⟩

/-- Witness for C9: the theorem applied to the concrete stream
`GET / HTTP/1.1` with empty headers, whose finished parser does not panic in
`get_request`. -/
theorem C9_done_state_start_line_set_witness :
    ({ state := ParserState.Done, method := some HttpMethod.GET,
       path := some (str "/"), version := some HttpVersion.V11, headers := [],
       body := none, contentLength := none,
       contentEncoding := [] } : Parser).getRequest ≠ GetOutcome.panicked :=
  (C9_done_state_start_line_set (str "GET / HTTP/1.1\r\n\r\n")
    { state := ParserState.Done, method := some HttpMethod.GET,
      path := some (str "/"), version := some HttpVersion.V11, headers := [],
      body := none, contentLength := none, contentEncoding := [] }
    (by decide)).2

/-- C10: every token outside the seven recognized encoding names parses to
`Unsupported`; splitting any Accept-Encoding value on commas yields at least
one token, and a non-empty collection of only-`Unsupported` encodings has
minimum `Some(Unsupported)` — so a request whose Accept-Encoding tokens are
all unrecognized gets encoding `Some(Unsupported)`, while only a request
with no Accept-Encoding header at all gets `None`. -/
theorem C10_unrecognized_tokens_unsupported :
    (∀ t : Str,
      t ≠ str "br" → t ≠ str "gzip" → t ≠ str "deflate" → t ≠ str "compress" →
      t ≠ str "exi" → t ≠ str "zstd" → t ≠ str "identity" →
      HttpEncoding.fromStr t = HttpEncoding.Unsupported) ∧
    (∀ v : Str, splitSep (str ",") v ≠ []) ∧
    (∀ l : List HttpEncoding, l ≠ [] →
      (∀ e ∈ l, e = HttpEncoding.Unsupported) →
      encMin l = some HttpEncoding.Unsupported) ∧
    requestEncoding (str "GET / HTTP/1.1\r\nAccept-Encoding: foo\r\n\r\n") =
      .ok (some HttpEncoding.Unsupported) ∧
    requestEncoding (str "GET / HTTP/1.1\r\n\r\n") = .ok none := by
  refine ⟨?_, fun v => splitSep_ne_nil (str ",") v, ?_, by decide, by decide⟩
  · intro t h1 h2 h3 h4 h5 h6 h7
    unfold HttpEncoding.fromStr
    rw [if_neg h1, if_neg h2, if_neg h3, if_neg h4, if_neg h5, if_neg h6, if_neg h7]
  · intro l
    induction l with
    | nil => intro h _; exact absurd rfl h
    | cons a as ih =>
      intro _ hall
      have ha : a = HttpEncoding.Unsupported := hall a (List.mem_cons_self a as)
      cases as with
      | nil => rw [encMin_cons_none a [] rfl, ha]
      | cons b bs =>
        have has : encMin (b :: bs) = some HttpEncoding.Unsupported :=
          ih (by simp) (fun e he => hall e (List.mem_cons_of_mem a he))
        rw [encMin_cons_some a HttpEncoding.Unsupported (b :: bs) has, ha]
        rfl

/-- Witness for C10: the general parts applied to the unrecognized token
`foo`, the value `foo` split on commas, and the one-element collection
holding only `Unsupported`. -/
theorem C10_unrecognized_tokens_unsupported_witness :
    HttpEncoding.fromStr (str "foo") = HttpEncoding.Unsupported ∧
    splitSep (str ",") (str "foo") ≠ [] ∧
    encMin [HttpEncoding.Unsupported] = some HttpEncoding.Unsupported :=
  ⟨C10_unrecognized_tokens_unsupported.1 (str "foo") (by decide) (by decide)
     (by decide) (by decide) (by decide) (by decide) (by decide),
   C10_unrecognized_tokens_unsupported.2.1 (str "foo"),
   C10_unrecognized_tokens_unsupported.2.2.1 [HttpEncoding.Unsupported]
     (by decide) (by decide)⟩

/-! ## Claims -/

/-- C3: for every one of the nine `HttpMethod` variants and every one of the
three `HttpVersion` variants, parsing the `Display` serialization returns
`Ok` of the same variant: `from_str(to_string(x)) == Ok(x)`. -/
theorem C3_display_fromStr_roundtrip :
    (∀ m : HttpMethod, HttpMethod.fromStr m.toStr = .ok m) ∧
    (∀ v : HttpVersion, HttpVersion.fromStr v.toStr = .ok v) := by
  constructor
  · intro m; cases m <;> rfl
  · intro v; cases v <;> rfl

/-- C6: the mapping `HttpError::to_response` is total and assigns each
variant the status of the spec table (NotFound 404, MethodNotAllowed 405,
BadRequest 400, Unauthorized 401, Forbidden 403, InternalError 500);
`MethodNotAllowed(methods)` carries exactly the header `Allowed` valued with
the comma-joined method names (so `GET,POST` for `[GET, POST]`), and
`Unauthorized` carries `WWW-Authenticate: Basic`. -/
theorem C6_httpError_toResponse_table :
    (∀ e : HttpError, (HttpError.toResponse e).status.code =
      match e with
      | HttpError.NotFound _ => 404
      | HttpError.MethodNotAllowed _ => 405
      | HttpError.BadRequest _ => 400
      | HttpError.Unauthorized => 401
      | HttpError.Forbidden => 403
      | HttpError.InternalError => 500) ∧
    (∀ methods : List HttpMethod,
      (HttpError.toResponse (HttpError.MethodNotAllowed methods)).headers =
        [⟨str "Allowed", joinComma (methods.map HttpMethod.toStr)⟩]) ∧
    getValue (HttpError.toResponse (HttpError.MethodNotAllowed
      [HttpMethod.GET, HttpMethod.POST])).headers (str "Allowed") =
      some (str "GET,POST") ∧
    getValue (HttpError.toResponse HttpError.Unauthorized).headers
      (str "WWW-Authenticate") = some (str "Basic") := by
  refine ⟨?_, ?_, by decide, by decide⟩
  · intro e; cases e <;> rfl
  · intro methods; rfl

/-- C5: for every body string, media type and optional encoding,
`HttpResponseBuilder::with_body` adds exactly the headers `Content-Type`
(the media type's wire string), `Content-Length` (the byte length of the
body) and — only when an encoding is given and is not `Unsupported` —
`Content-Encoding`; a builder finalized without `with_body` produces a
response with no headers at all, in particular none of these three. -/
theorem C5_withBody_framing_headers :
    (∀ (body : Str) (mt : MimeType) (enc : Option HttpEncoding),
      ((HttpResponseBuilder.mkNew.withBody body mt enc).toResponse).headers =
        [⟨str "Content-Type", mt.toStr⟩,
         ⟨str "Content-Length", natToStr body.length⟩] ++
          (match enc with
           | some e =>
             if e ≠ HttpEncoding.Unsupported then
               [⟨str "Content-Encoding", e.toStr⟩]
             else []
           | none => [])) ∧
    HttpResponseBuilder.mkNew.toResponse.headers = [] := by
  constructor
  · intro body mt enc
    cases enc with
    | none => rfl
    | some e => cases e <;> rfl
  · rfl
